import Mathlib

/-!
Verification of the transcoder repository: a shallow embedding of the
ledger (database.rs), the candidate collection filter (collect.rs), the
per-file transcode orchestration (transcode.rs) and the byte-size parser
(main.rs), together with theorems settling the specification claims.
-/

namespace Transcoder

/-- database.rs `TranscodeStatus`: processing status of a ledger row. -/
inductive TranscodeStatus
  | pending
  | success
  | error
  deriving DecidableEq, Repr

/-- ffprobe.rs `Stream`, restricted to the fields the orchestration reads
(codec selection); the remaining fields never influence the claims. -/
structure Stream where
  codec_type : Option String
  codec_name : Option String
  deriving DecidableEq, Repr

/-- ffprobe.rs `FfProbe`, restricted to its stream list. -/
structure FfProbe where
  streams : List Stream
  deriving DecidableEq, Repr

/-- ffprobe.rs `FfProbe::video_codec`: the codec name of the first stream
whose codec_type is "video", defaulting to the empty string. -/
def FfProbe.video_codec (p : FfProbe) : String :=
  match p.streams.find? (fun s => s.codec_type == some "video") with
  | some s => s.codec_name.getD ""
  | none => ""

/-- database.rs `TranscodeFile`: one ledger row. The probe metadata is held
structurally rather than as its JSON serialization. -/
structure TranscodeFile where
  rowid : Int
  path : String
  status : TranscodeStatus
  created_on : Int
  updated_on : Int
  error_message : Option String
  file_size : Int
  ffprobe_info : FfProbe
  deriving DecidableEq, Repr

/-- database.rs `NewTranscodeFile`: a row to be inserted (file_size is u64
in the source and is cast to i64 on insert). -/
structure NewTranscodeFile where
  path : String
  file_size : Nat
  ffprobe_info : FfProbe
  deriving DecidableEq, Repr

/-- The ledger table, rows in insertion (rowid) order. -/
abbrev Ledger := List TranscodeFile

/-- The Rust cast `u64 as i64`: two's-complement wrap of a u64 value. -/
def u64_as_i64 (n : Nat) : Int :=
  if n < 2 ^ 63 then (n : Int) else (n : Int) - 2 ^ 64

/-- One `INSERT ... ON CONFLICT (path) DO NOTHING` step of
database.rs `insert_batch` (lines 127-137). Modelled from the spec: the
schema file init_db.sql is not under src; per the spec the path column is
UNIQUE and the status column defaults to Pending, so a conflicting path
leaves the table unchanged and a fresh row starts Pending. -/
def insertOne (now : Int) (db : Ledger) (f : NewTranscodeFile) : Ledger :=
  if db.any (fun r => r.path == f.path) then db
  else
    db ++ [{ rowid := (db.length : Int) + 1
             path := f.path
             status := TranscodeStatus.pending
             created_on := now
             updated_on := now
             error_message := none
             file_size := u64_as_i64 f.file_size
             ffprobe_info := f.ffprobe_info }]

/-- database.rs `Database::insert_batch` (lines 120-143): conflict-tolerant
bulk insert, one transaction (the embedding is atomic by construction). -/
def insert_batch (now : Int) (db : Ledger) (files : List NewTranscodeFile) : Ledger :=
  files.foldl (insertOne now) db

/-- database.rs `Database::set_file_status` (lines 145-159): unconditional
`UPDATE transcode_files SET status, updated_on, error_message WHERE rowid`. -/
def set_file_status (now : Int) (db : Ledger) (rowid : Int) (status : TranscodeStatus)
    (error_message : Option String) : Ledger :=
  db.map fun r =>
    if r.rowid == rowid then
      { r with status := status, updated_on := now, error_message := error_message }
    else r

/-- The comparison behind `ORDER BY file_size DESC`. -/
def sizeDescOrder (a b : TranscodeFile) : Prop := b.file_size ≤ a.file_size

instance : DecidableRel sizeDescOrder := fun a b => Int.decLe b.file_size a.file_size

instance : IsTotal TranscodeFile sizeDescOrder :=
  ⟨fun a b => le_total b.file_size a.file_size⟩

instance : IsTrans TranscodeFile sizeDescOrder :=
  ⟨fun _ _ _ hab hbc => le_trans hbc hab⟩

/-- SQLite `LIMIT ?`: a negative limit means no limit. -/
def sqlLimit (n : Int) (db : Ledger) : Ledger :=
  if n < 0 then db else db.take n.toNat

/-- database.rs `Database::list_limit` (lines 111-118):
`SELECT rowid, * FROM transcode_files ORDER BY file_size DESC LIMIT ?1`,
with i64::MAX substituted when no count is given. -/
def list_limit (db : Ledger) (count : Option Int) : Ledger :=
  sqlLimit (count.getD (2 ^ 63 - 1)) (List.insertionSort sizeDescOrder db)

/-- collect.rs `excluded_codecs` (line 162). -/
def excluded_codecs : List String := ["hevc", "av1"]

/-- collect.rs `gather_files`, codec-filter stage (line 163): probed files
whose video codec is in the exclusion set are dropped before the batch
insert. The triple is (path, probe result, file size). -/
def retainSupported (files : List (String × FfProbe × Nat)) : List (String × FfProbe × Nat) :=
  files.filter fun f => !excluded_codecs.contains f.2.1.video_codec

/-- collect.rs `gather_files`, persistence stage (lines 167-175): the
retained files are turned into records and bulk inserted. -/
def gather_insert (now : Int) (db : Ledger) (files : List (String × FfProbe × Nat)) : Ledger :=
  insert_batch now db
    ((retainSupported files).map fun f =>
      { path := f.1, file_size := f.2.2, ffprobe_info := f.2.1 })

/-- transcode.rs `GpuMode`. -/
inductive GpuMode
  | nvidia
  | qsv
  deriving DecidableEq, Repr

/-- transcode.rs `TranscodeOptions`. -/
structure TranscodeOptions where
  crf : Nat
  effort : Nat
  dry_run : Bool
  replace : Bool
  progress_hidden : Bool
  ignored_codecs : List String
  gpu : Option GpuMode
  parallel : Nat
  deriving DecidableEq, Repr

/-- collect.rs `VideoFile`, restricted to the fields transcode.rs reads.
The f64 duration is carried as the u64 millisecond count
`(duration * 1000.0) as u64` used by the progress accounting. -/
structure VideoFile where
  rowid : Int
  path : String
  duration_millis : Nat
  codec : String
  file_size : Nat
  deriving DecidableEq, Repr

/-- The components of a path split at the directory separators. -/
def pathParts (p : String) : List String := p.splitOn "/"

/-- camino `Utf8Path::file_name`-style final component. -/
def fileName (p : String) : String := (pathParts p).getLastD ""

/-- camino `Utf8Path::with_file_name`: replace the final component. -/
def withFileName (p name : String) : String :=
  String.intercalate "/" ((pathParts p).dropLast ++ [name])

/-- The stem of a file name: the name up to its final dot, the whole name
when there is no dot or when the only dot is the leading one. -/
def stemOfName (name : String) : String :=
  match name.splitOn "." with
  | [] => name
  | [_] => name
  | first :: rest =>
    if first == "" && rest.length == 1 then name
    else String.intercalate "." ((first :: rest).dropLast)

/-- transcode.rs line 146: `file.path.file_stem()`. -/
def file_stem (p : String) : String := stemOfName (fileName p)

/-- transcode.rs line 147: the sidecar output path, the stem with the
`_av1.mp4` suffix. -/
def outFilePath (p : String) : String := withFileName p (file_stem p ++ "_av1.mp4")

/-- transcode.rs line 152: the temporary output path, the stem with the
`_tmp.mp4` suffix. -/
def tmpFilePath (p : String) : String := withFileName p (file_stem p ++ "_tmp.mp4")

/-- u64 subtraction as compiled in release mode: wrapping modulo 2^64. -/
def u64_sub (a b : Nat) : Nat := (a + 2 ^ 64 - b) % 2 ^ 64

/-- One out_time_us progress event (transcode.rs lines 271-284): convert the
captured microsecond value to milliseconds, add the delta since the last
position to the counters, remember the new position. The state is
(last_postion, total added to the aggregate counter so far). -/
def progressStep (acc : Nat × Nat) (out_time_us : Nat) : Nat × Nat :=
  let millis := out_time_us / 1000
  let delta := u64_sub millis acc.1
  (millis, acc.2 + delta)

/-- The progress-consuming loop of transcode.rs lines 267-286, starting from
`last_postion = 0`; the input is the sequence of out_time_us regex captures
in stream order (lines without a capture contribute nothing). -/
def progressDrain (events : List Nat) : Nat × Nat :=
  events.foldl progressStep (0, 0)

/-- ffprobe.rs `commandline_error` (lines 207-219): the diagnostic message
built from a failed command's captured output. -/
def commandline_error_msg (command_name : String) (exitCode : Int)
    (stdoutTxt stderrTxt : String) : String :=
  "command " ++ command_name ++ " failed with exit code " ++ toString exitCode ++
    ", stdout:\n" ++ "'" ++ stdoutTxt ++ "'" ++ "\nstderr:\n" ++ "'" ++ stderrTxt ++ "'"

/-- The external world as observed by one `transcode_file` call: filesystem
query results, the spawned process's progress stream and exit information,
and the outcome of each filesystem operation (`none` means the operation
succeeds, `some msg` that it fails with that message). `now` is the clock
value a status write of this file would store. -/
structure EncodeEnv where
  isFile : String → Bool
  now : Int
  spawnErr : Option String
  events : List Nat
  exitSuccess : Bool
  exitCode : Int
  stdoutTxt : String
  stderrTxt : String
  metadataLen : Except String Nat
  removeErr : String → Option String
  renameErr : String → String → Option String

/-- The file-scoped observable effects of one `transcode_file` call:
whether the encoder subprocess was spawned, which paths were removed and
renamed (in order, successful operations only), the ledger status writes
(rowid, status, error_message), the total added to the aggregate progress
counter, and the returned result. -/
structure FileEffects where
  spawned : Bool
  removed : List String
  renamed : List (String × String)
  ledgerWrites : List (Int × TranscodeStatus × Option String)
  progressAdded : Nat
  result : Except String Unit
  deriving Repr

/-- transcode.rs `Transcoder::transcode_file` (lines 142-328) as a function
of the external-world oracle. Progress-bar rendering is not modelled; the
argument vector construction (lines 153-228) only feeds the subprocess and
the dry-run log, so it does not appear among the effects. -/
def transcode_file (opts : TranscodeOptions) (file : VideoFile) (env : EncodeEnv) :
    FileEffects :=
  let out_file := outFilePath file.path
  let tmp_file := tmpFilePath file.path
  if env.isFile out_file then
    { spawned := false, removed := [], renamed := [], ledgerWrites := []
      progressAdded := 0, result := Except.ok () }
  else if opts.dry_run then
    { spawned := false, removed := [], renamed := [], ledgerWrites := []
      progressAdded := file.duration_millis, result := Except.ok () }
  else
    match env.spawnErr with
    | some e =>
      { spawned := false, removed := [], renamed := [], ledgerWrites := []
        progressAdded := 0, result := Except.error e }
    | none =>
      let total := (progressDrain env.events).2
      if env.exitSuccess then
        match env.metadataLen with
        | Except.error e =>
          { spawned := true, removed := [], renamed := [], ledgerWrites := []
            progressAdded := total, result := Except.error e }
        | Except.ok new_file_size =>
          if new_file_size ≥ file.file_size then
            match env.removeErr tmp_file with
            | some e =>
              { spawned := true, removed := [], renamed := [], ledgerWrites := []
                progressAdded := total, result := Except.error e }
            | none =>
              { spawned := true, removed := [tmp_file], renamed := [], ledgerWrites := []
                progressAdded := total, result := Except.ok () }
          else if opts.replace then
            match env.removeErr file.path with
            | some e =>
              { spawned := true, removed := [], renamed := [], ledgerWrites := []
                progressAdded := total, result := Except.error e }
            | none =>
              match env.renameErr tmp_file file.path with
              | some e =>
                { spawned := true, removed := [file.path], renamed := [], ledgerWrites := []
                  progressAdded := total, result := Except.error e }
              | none =>
                { spawned := true, removed := [file.path]
                  renamed := [(tmp_file, file.path)]
                  ledgerWrites := [(file.rowid, TranscodeStatus.success, none)]
                  progressAdded := total, result := Except.ok () }
          else
            match env.renameErr tmp_file out_file with
            | some e =>
              { spawned := true, removed := [], renamed := [], ledgerWrites := []
                progressAdded := total, result := Except.error e }
            | none =>
              { spawned := true, removed := []
                renamed := [(tmp_file, out_file)]
                ledgerWrites := [(file.rowid, TranscodeStatus.success, none)]
                progressAdded := total, result := Except.ok () }
      else
        let e := commandline_error_msg "ffmpeg" env.exitCode env.stdoutTxt env.stderrTxt
        { spawned := true, removed := [], renamed := []
          ledgerWrites := [(file.rowid, TranscodeStatus.error, some e)]
          progressAdded := total, result := Except.error e }

/-- Apply a list of status writes to the ledger. -/
def applyWrites (now : Int) (db : Ledger)
    (ws : List (Int × TranscodeStatus × Option String)) : Ledger :=
  ws.foldl (fun d w => set_file_status now d w.1 w.2.1 w.2.2) db

/-- The ledger after transcode.rs `Transcoder::transcode_all`
(lines 330-371) has processed the given files: each file's status writes
are applied to its own row. The rayon `par_iter` is modelled by its
sequential effect order; every write targets the rowid owned by one file,
so the order across files does not affect any claim proved here. -/
def transcodeLedger (opts : TranscodeOptions) (db : Ledger)
    (files : List (VideoFile × EncodeEnv)) : Ledger :=
  files.foldl
    (fun d fe => applyWrites fe.2.now d (transcode_file opts fe.1 fe.2).ledgerWrites) db

/-- The warnings transcode_all emits (lines 362-367): one per file whose
`transcode_file` call returned an error. -/
def transcodeWarnings (opts : TranscodeOptions)
    (files : List (VideoFile × EncodeEnv)) : List String :=
  files.filterMap fun fe =>
    match (transcode_file opts fe.1 fe.2).result with
    | Except.ok _ => none
    | Except.error e => some ("Could not transcode file " ++ fe.1.path ++ ": " ++ e)

/-- transcode.rs `Transcoder::transcode_all` (lines 330-371): the final
ledger, the warnings, and the overall result, which is Ok regardless of
per-file failures (a per-file error is downgraded to a warning at line
365 and never propagated). -/
def transcode_all (opts : TranscodeOptions) (db : Ledger)
    (files : List (VideoFile × EncodeEnv)) :
    Ledger × List String × Except String Unit :=
  (transcodeLedger opts db files, transcodeWarnings opts files, Except.ok ())

/-- Rust `str::trim` on a character list: strip leading and trailing
whitespace. -/
def rustTrim (l : List Char) : List Char :=
  ((l.dropWhile Char.isWhitespace).reverse.dropWhile Char.isWhitespace).reverse

/-- The numeric value of a digit string read left to right. -/
def digitsVal (l : List Char) : Nat := l.foldl (fun a c => a * 10 + (c.toNat - 48)) 0

/-- Rust `str::parse::<u64>` on a character list, for the sign-free inputs
relevant here: nonempty, all ASCII digits, value below 2^64. -/
def parse_u64 (l : List Char) : Option Nat :=
  if l.isEmpty then none
  else if l.all Char.isDigit then
    if digitsVal l < 2 ^ 64 then some (digitsVal l) else none
  else none

/-- The multiplier main.rs lines 85-90 derives from the lowercased unit
suffix. -/
def suffixMultiplier (suffix : List Char) : Nat :=
  if suffix.map Char.toLower = ['k'] then 1024
  else if suffix.map Char.toLower = ['m'] then 1024 * 1024
  else if suffix.map Char.toLower = ['g'] then 1024 * 1024 * 1024
  else 1

/-- main.rs `parse_bytes` (lines 81-92): trim, split off the final character
as the unit suffix, parse the rest as u64, scale by the suffix multiplier.
Strings are handled as their character lists; the byte indexing of
`String::split_off` coincides with character indexing on the ASCII inputs
considered, and the panic of the source on an empty trimmed input
(`value.len() - 1` underflows) is outside the all-digit inputs of the
claims. -/
def parse_bytes (s : String) : Option Nat :=
  let t := rustTrim s.data
  let value := t.take (t.length - 1)
  let suffix := t.drop (t.length - 1)
  match parse_u64 value with
  | none => none
  | some v => some (v * suffixMultiplier suffix)

/-- A state of the worker pool driving the encodes: one slot per worker
(`some f` while that worker's encode subprocess for file f is live), plus
the files not yet picked up. -/
structure PoolState where
  workers : List (Option VideoFile)
  pending : List VideoFile
  deriving Repr

/-- The number of simultaneously live encoder subprocesses: one per busy
worker. -/
def PoolState.live (s : PoolState) : Nat := s.workers.countP fun w => w.isSome

/-- The pool as built by transcode.rs `transcode_all` (lines 331-341): P
idle workers, all selected files pending. -/
def initPool (P : Nat) (files : List VideoFile) : PoolState :=
  { workers := List.replicate P none, pending := files }

/-- Scheduling steps of the fixed-size pool running `par_iter().for_each`
(transcode.rs lines 331-341 and 361-368): an idle worker may pick up the
next pending file and spawn its encode subprocess; a busy worker finishes
its file to completion and only then frees its slot. Modelled from the
spec: the rayon scheduler itself is library code outside src; its contract
per the spec is a fixed pool of P workers, each owning one in-flight
subprocess at a time and processing files sequentially within itself. -/
inductive PoolStep : PoolState → PoolState → Prop
  | start (s : PoolState) (i : Nat) (f : VideoFile) (rest : List VideoFile)
      (hi : s.workers.get? i = some none) (hp : s.pending = f :: rest) :
      PoolStep s { workers := s.workers.set i (some f), pending := rest }
  | finish (s : PoolState) (i : Nat) (f : VideoFile)
      (hi : s.workers.get? i = some (some f)) :
      PoolStep s { workers := s.workers.set i none, pending := s.pending }

/-- Whether every progress event's millisecond position is at least the
previous position, that is every delta of the loop is a plain
(non-wrapping) difference. -/
def deltasNonneg (p : Nat) : List Nat → Bool
  | [] => true
  | e :: rest => (decide (p ≤ e / 1000)) && deltasNonneg (e / 1000) rest

/-- The diagnostic message transcode.rs line 319 builds for a failed run. -/
def ffmpegFailMsg (env : EncodeEnv) : String :=
  commandline_error_msg "ffmpeg" env.exitCode env.stdoutTxt env.stderrTxt

/-- A fixed option set for the concrete checks below. -/
def sampleOpts : TranscodeOptions :=
  { crf := 24, effort := 7, dry_run := false, replace := false, progress_hidden := true
    ignored_codecs := [], gpu := none, parallel := 1 }

/-- sampleOpts with replace-in-place enabled. -/
def replaceOpts : TranscodeOptions := { sampleOpts with replace := true }

/-- A fixed selected file for the concrete checks below. -/
def sampleFile : VideoFile :=
  { rowid := 1, path := "/v/a.mp4", duration_millis := 2000, codec := "h264", file_size := 100 }

/-- A benign environment: no sidecar present, every filesystem operation
succeeds, the subprocess exits zero leaving a 40-byte temporary file. -/
def baseEnv : EncodeEnv :=
  { isFile := fun _ => false, now := 7, spawnErr := none, events := []
    exitSuccess := true, exitCode := 0, stdoutTxt := "", stderrTxt := ""
    metadataLen := Except.ok 40, removeErr := fun _ => none, renameErr := fun _ _ => none }

/-- baseEnv but the sidecar output already exists. -/
def skipEnv : EncodeEnv := { baseEnv with isFile := fun _ => true }

/-- baseEnv but the encode subprocess exits non-zero with a diagnostic. -/
def failEnv : EncodeEnv :=
  { baseEnv with
    exitSuccess := false
    exitCode := 1
    stderrTxt := "unsupported pixel format" }

/-- baseEnv but every file removal fails. -/
def finErrEnv : EncodeEnv := { baseEnv with removeErr := fun _ => some "permission denied" }

/-- baseEnv but the finished temporary file is larger than the original. -/
def bigOutEnv : EncodeEnv := { baseEnv with metadataLen := Except.ok 200 }

/-- baseEnv with a three-event progress stream ending at two seconds. -/
def progEnv : EncodeEnv := { baseEnv with events := [500000, 1500000, 2000000] }

/-- A ledger row already processed successfully. -/
def successRow : TranscodeFile :=
  { rowid := 1, path := "/v/a.mp4", status := TranscodeStatus.success, created_on := 0
    updated_on := 0, error_message := none, file_size := 100, ffprobe_info := ⟨[]⟩ }

/-- A ledger row whose probed video codec is hevc, in the exclusion set. -/
def hevcRow : TranscodeFile :=
  { rowid := 1, path := "/v/x.mp4", status := TranscodeStatus.pending, created_on := 0
    updated_on := 0, error_message := none, file_size := 100
    ffprobe_info := ⟨[⟨some "video", some "hevc"⟩]⟩ }

/-- A fixed record to insert in the concrete checks below. -/
def sampleRecord : NewTranscodeFile :=
  { path := "/v/a.mp4", file_size := 100, ffprobe_info := ⟨[]⟩ }

/-! Helper lemmas. -/

theorem isDigit_isWhitespace_false (c : Char) (h : c.isDigit = true) :
    c.isWhitespace = false := by
  have h1 : c ≠ ' ' := by rintro rfl; exact absurd h (by decide)
  have h2 : c ≠ '\t' := by rintro rfl; exact absurd h (by decide)
  have h3 : c ≠ '\r' := by rintro rfl; exact absurd h (by decide)
  have h4 : c ≠ '\n' := by rintro rfl; exact absurd h (by decide)
  simp [Char.isWhitespace, h1, h2, h3, h4]

theorem isDigit_toNat_le (c : Char) (h : c.isDigit = true) : c.toNat ≤ 57 := by
  simp [Char.isDigit, Bool.and_eq_true] at h
  exact UInt32.toNat_le_of_le (by norm_num [UInt32.size]) h.2

theorem toLower_eq_self_of_isDigit (c : Char) (h : c.isDigit = true) : c.toLower = c := by
  have hle := isDigit_toNat_le c h
  simp [Char.toLower]
  omega

/-! Claim theorems. -/

/-- C8: for every selected file whose sidecar output path already exists
when the worker starts on it, the encoder subprocess is never spawned, no
filesystem operation happens, and the ledger is left untouched. -/
theorem sidecar_exists_skips_file (opts : TranscodeOptions) (file : VideoFile)
    (env : EncodeEnv) (hout : env.isFile (outFilePath file.path) = true) :
    transcode_file opts file env =
      { spawned := false, removed := [], renamed := [], ledgerWrites := []
        progressAdded := 0, result := Except.ok () } := by
  simp [transcode_file, hout]

/-- Witness for C8 at a concrete file and environment. -/
theorem sidecar_exists_skips_file_witness :
    skipEnv.isFile (outFilePath sampleFile.path) = true ∧
    transcode_file sampleOpts sampleFile skipEnv =
      { spawned := false, removed := [], renamed := [], ledgerWrites := []
        progressAdded := 0, result := Except.ok () } :=
  ⟨rfl, sidecar_exists_skips_file sampleOpts sampleFile skipEnv rfl⟩

/-- C4: for every file whose encode exits zero but whose temporary output
is at least as large as the original, the temporary file is removed,
nothing is renamed, no ledger status write occurs, and the call succeeds
(the original is left in place: the only filesystem change is the removal
of the temporary file). -/
theorem larger_output_discarded (opts : TranscodeOptions) (file : VideoFile)
    (env : EncodeEnv) (n : Nat)
    (hout : env.isFile (outFilePath file.path) = false)
    (hdry : opts.dry_run = false)
    (hspawn : env.spawnErr = none)
    (hexit : env.exitSuccess = true)
    (hmeta : env.metadataLen = Except.ok n)
    (hge : n ≥ file.file_size)
    (hrm : env.removeErr (tmpFilePath file.path) = none) :
    transcode_file opts file env =
      { spawned := true, removed := [tmpFilePath file.path], renamed := []
        ledgerWrites := [], progressAdded := (progressDrain env.events).2
        result := Except.ok () } := by
  simp [transcode_file, hout, hdry, hspawn, hexit, hmeta, hge, hrm]

/-- Witness for C4: a 200-byte output for a 100-byte original. -/
theorem larger_output_discarded_witness :
    (200 ≥ sampleFile.file_size) ∧
    transcode_file sampleOpts sampleFile bigOutEnv =
      { spawned := true, removed := [tmpFilePath sampleFile.path], renamed := []
        ledgerWrites := [], progressAdded := (progressDrain bigOutEnv.events).2
        result := Except.ok () } :=
  ⟨by decide, larger_output_discarded sampleOpts sampleFile bigOutEnv 200 rfl rfl rfl rfl rfl
    (by decide) rfl⟩

theorem commandline_error_msg_has_stderr (cmd : String) (code : Int) (so se : String) :
    ∃ a b, commandline_error_msg cmd code so se = a ++ se ++ b :=
  ⟨"command " ++ cmd ++ " failed with exit code " ++ toString code ++ ", stdout:\n" ++ "'" ++
      so ++ "'" ++ "\nstderr:\n" ++ "'", "'",
    by simp [commandline_error_msg, String.append_assoc]⟩

/-- C2: for every file whose encode subprocess exits non-zero, the worker
writes ledger status Error with an error_message containing the captured
diagnostic output, transcode_all records one warning for the file and
continues with the remaining files, and the run's overall result stays Ok. -/
theorem encode_failure_isolated (opts : TranscodeOptions) (file : VideoFile)
    (env : EncodeEnv) (db : Ledger) (rest : List (VideoFile × EncodeEnv))
    (hout : env.isFile (outFilePath file.path) = false)
    (hdry : opts.dry_run = false)
    (hspawn : env.spawnErr = none)
    (hexit : env.exitSuccess = false) :
    (transcode_file opts file env).ledgerWrites =
      [(file.rowid, TranscodeStatus.error, some (ffmpegFailMsg env))] ∧
    (∃ a b, ffmpegFailMsg env = a ++ env.stderrTxt ++ b) ∧
    transcodeWarnings opts ((file, env) :: rest) =
      ("Could not transcode file " ++ file.path ++ ": " ++ ffmpegFailMsg env) ::
        transcodeWarnings opts rest ∧
    transcodeLedger opts db ((file, env) :: rest) =
      transcodeLedger opts
        (set_file_status env.now db file.rowid TranscodeStatus.error
          (some (ffmpegFailMsg env))) rest ∧
    (transcode_all opts db ((file, env) :: rest)).2.2 = Except.ok () := by
  have heff : transcode_file opts file env =
      { spawned := true, removed := [], renamed := []
        ledgerWrites := [(file.rowid, TranscodeStatus.error, some (ffmpegFailMsg env))]
        progressAdded := (progressDrain env.events).2
        result := Except.error (ffmpegFailMsg env) } := by
    simp [transcode_file, ffmpegFailMsg, hout, hdry, hspawn, hexit]
  refine ⟨by rw [heff], commandline_error_msg_has_stderr _ _ _ _, ?_, ?_, rfl⟩
  · simp [transcodeWarnings, List.filterMap_cons, heff]
  · show transcodeLedger opts
        (applyWrites env.now db (transcode_file opts file env).ledgerWrites) rest = _
    rw [heff]
    rfl

/-- Witness for C2: the encoder fails with stderr "unsupported pixel
format"; the row is written Error with a message containing that text and
the run result stays Ok. -/
theorem encode_failure_isolated_witness :
    (transcode_file sampleOpts sampleFile failEnv).ledgerWrites =
      [(sampleFile.rowid, TranscodeStatus.error, some (ffmpegFailMsg failEnv))] ∧
    (∃ a b, ffmpegFailMsg failEnv = a ++ failEnv.stderrTxt ++ b) ∧
    transcodeWarnings sampleOpts ((sampleFile, failEnv) :: []) =
      ("Could not transcode file " ++ sampleFile.path ++ ": " ++ ffmpegFailMsg failEnv) ::
        transcodeWarnings sampleOpts [] ∧
    transcodeLedger sampleOpts [successRow] ((sampleFile, failEnv) :: []) =
      transcodeLedger sampleOpts
        (set_file_status failEnv.now [successRow] sampleFile.rowid TranscodeStatus.error
          (some (ffmpegFailMsg failEnv))) [] ∧
    (transcode_all sampleOpts [successRow] ((sampleFile, failEnv) :: [])).2.2 =
      Except.ok () :=
  encode_failure_isolated sampleOpts sampleFile failEnv [successRow] [] rfl rfl rfl rfl

/-- C1 counterexample: a run in replace mode where the encode exits zero
with a smaller output but deleting the original fails; the claim says the
ledger row is set to Error, yet no ledger write happens at all. -/
theorem finalize_error_no_ledger_write_cex :
    finErrEnv.exitSuccess = true ∧
    replaceOpts.replace = true ∧
    (transcode_file replaceOpts sampleFile finErrEnv).result =
      Except.error "permission denied" ∧
    (transcode_file replaceOpts sampleFile finErrEnv).ledgerWrites = [] :=
  ⟨rfl, rfl, rfl, rfl⟩

/-- C1 amended: for every file whose encode exits zero with a smaller
output, a filesystem error during finalization (deleting the original in
replace mode, or either rename) makes the per-file call return the
underlying error with NO ledger status write; the failure stays isolated
to this file: the ledger evolves as if the file had not been processed and
the run's overall result stays Ok. -/
theorem finalize_error_amended (opts : TranscodeOptions) (file : VideoFile)
    (env : EncodeEnv) (msg : String) (n : Nat) (db : Ledger)
    (rest : List (VideoFile × EncodeEnv))
    (hout : env.isFile (outFilePath file.path) = false)
    (hdry : opts.dry_run = false)
    (hspawn : env.spawnErr = none)
    (hexit : env.exitSuccess = true)
    (hmeta : env.metadataLen = Except.ok n)
    (hsmall : n < file.file_size)
    (hfail : (opts.replace = true ∧ env.removeErr file.path = some msg) ∨
             (opts.replace = true ∧ env.removeErr file.path = none ∧
               env.renameErr (tmpFilePath file.path) file.path = some msg) ∨
             (opts.replace = false ∧
               env.renameErr (tmpFilePath file.path) (outFilePath file.path) = some msg)) :
    (transcode_file opts file env).ledgerWrites = [] ∧
    (transcode_file opts file env).result = Except.error msg ∧
    transcodeLedger opts db ((file, env) :: rest) = transcodeLedger opts db rest ∧
    (transcode_all opts db ((file, env) :: rest)).2.2 = Except.ok () := by
  have hn : ¬ n ≥ file.file_size := by omega
  have heff : (transcode_file opts file env).ledgerWrites = [] ∧
      (transcode_file opts file env).result = Except.error msg := by
    rcases hfail with ⟨hr, hrm⟩ | ⟨hr, hrm, hrn⟩ | ⟨hr, hrn⟩
    · constructor <;>
        simp [transcode_file, hout, hdry, hspawn, hexit, hmeta, hn, hr, hrm]
    · constructor <;>
        simp [transcode_file, hout, hdry, hspawn, hexit, hmeta, hn, hr, hrm, hrn]
    · constructor <;>
        simp [transcode_file, hout, hdry, hspawn, hexit, hmeta, hn, hr, hrn]
  refine ⟨heff.1, heff.2, ?_, rfl⟩
  show transcodeLedger opts
      (applyWrites env.now db (transcode_file opts file env).ledgerWrites) rest = _
  rw [heff.1]
  rfl

/-- Witness for the amended C1 at the concrete counterexample input. -/
theorem finalize_error_amended_witness :
    (transcode_file replaceOpts sampleFile finErrEnv).ledgerWrites = [] ∧
    (transcode_file replaceOpts sampleFile finErrEnv).result =
      Except.error "permission denied" ∧
    transcodeLedger replaceOpts [successRow] ((sampleFile, finErrEnv) :: []) =
      transcodeLedger replaceOpts [successRow] [] ∧
    (transcode_all replaceOpts [successRow] ((sampleFile, finErrEnv) :: [])).2.2 =
      Except.ok () :=
  finalize_error_amended replaceOpts sampleFile finErrEnv "permission denied" 40
    [successRow] [] rfl rfl rfl rfl rfl (by decide) (Or.inl ⟨rfl, rfl⟩)

theorem insertOne_append (now : Int) (db : Ledger) (f : NewTranscodeFile) :
    ∃ tail, insertOne now db f = db ++ tail := by
  unfold insertOne
  split
  · exact ⟨[], by simp⟩
  · exact ⟨_, rfl⟩

theorem insert_batch_append (now : Int) (db : Ledger) (files : List NewTranscodeFile) :
    ∃ tail, insert_batch now db files = db ++ tail := by
  induction files generalizing db with
  | nil => exact ⟨[], by simp [insert_batch]⟩
  | cons f fs ih =>
    obtain ⟨t1, h1⟩ := insertOne_append now db f
    obtain ⟨t2, h2⟩ := ih (insertOne now db f)
    refine ⟨t1 ++ t2, ?_⟩
    calc insert_batch now db (f :: fs)
        = insert_batch now (insertOne now db f) fs := rfl
      _ = insertOne now db f ++ t2 := h2
      _ = db ++ (t1 ++ t2) := by rw [h1, List.append_assoc]

theorem mem_paths_insertOne (now : Int) (db : Ledger) (f : NewTranscodeFile) (p : String)
    (hp : p ∈ db.map TranscodeFile.path) :
    p ∈ (insertOne now db f).map TranscodeFile.path := by
  obtain ⟨t, ht⟩ := insertOne_append now db f
  rw [ht, List.map_append]
  exact List.mem_append_left _ hp

theorem self_mem_paths_insertOne (now : Int) (db : Ledger) (f : NewTranscodeFile) :
    f.path ∈ (insertOne now db f).map TranscodeFile.path := by
  unfold insertOne
  split
  · rename_i h
    rw [List.any_eq_true] at h
    obtain ⟨r, hr, hbeq⟩ := h
    rw [beq_iff_eq] at hbeq
    rw [← hbeq]
    exact List.mem_map_of_mem _ hr
  · simp

theorem insertOne_of_path_mem (now : Int) (db : Ledger) (f : NewTranscodeFile)
    (hp : f.path ∈ db.map TranscodeFile.path) : insertOne now db f = db := by
  unfold insertOne
  rw [if_pos]
  rw [List.any_eq_true]
  obtain ⟨r, hr, hrp⟩ := List.mem_map.mp hp
  exact ⟨r, hr, beq_iff_eq.mpr hrp⟩

theorem mem_paths_insert_batch (now : Int) (db : Ledger) (files : List NewTranscodeFile)
    (p : String) (hp : p ∈ db.map TranscodeFile.path) :
    p ∈ (insert_batch now db files).map TranscodeFile.path := by
  obtain ⟨t, ht⟩ := insert_batch_append now db files
  rw [ht, List.map_append]
  exact List.mem_append_left _ hp

theorem paths_present_after_insert_batch (now : Int) (db : Ledger)
    (files : List NewTranscodeFile) (f : NewTranscodeFile) (hf : f ∈ files) :
    f.path ∈ (insert_batch now db files).map TranscodeFile.path := by
  induction files generalizing db with
  | nil => cases hf
  | cons g gs ih =>
    rcases List.mem_cons.mp hf with hf | hf
    · subst hf
      exact mem_paths_insert_batch now _ gs f.path (self_mem_paths_insertOne now db f)
    · exact ih (insertOne now db g) hf

theorem insert_batch_noop_of_paths_present (now : Int) (db : Ledger)
    (files : List NewTranscodeFile)
    (h : ∀ f ∈ files, f.path ∈ db.map TranscodeFile.path) :
    insert_batch now db files = db := by
  induction files with
  | nil => rfl
  | cons g gs ih =>
    have hg := insertOne_of_path_mem now db g (h g (by simp))
    calc insert_batch now db (g :: gs)
        = insert_batch now (insertOne now db g) gs := rfl
      _ = insert_batch now db gs := by rw [hg]
      _ = db := ih fun f hf => h f (by simp [hf])

theorem insertOne_nodup_paths (now : Int) (db : Ledger) (f : NewTranscodeFile)
    (h : (db.map TranscodeFile.path).Nodup) :
    ((insertOne now db f).map TranscodeFile.path).Nodup := by
  unfold insertOne
  split
  · exact h
  · rename_i hany
    have hnot : f.path ∉ db.map TranscodeFile.path := by
      intro hmem
      refine hany ?_
      rw [List.any_eq_true]
      obtain ⟨r, hr, hrp⟩ := List.mem_map.mp hmem
      exact ⟨r, hr, beq_iff_eq.mpr hrp⟩
    rw [List.map_append, List.nodup_append]
    refine ⟨h, by simp, ?_⟩
    intro a ha hb
    simp only [List.map_cons, List.map_nil, List.mem_singleton] at hb
    rw [hb] at ha
    exact hnot ha

theorem insert_batch_nodup_paths (now : Int) (db : Ledger)
    (files : List NewTranscodeFile) (h : (db.map TranscodeFile.path).Nodup) :
    ((insert_batch now db files).map TranscodeFile.path).Nodup := by
  induction files generalizing db with
  | nil => exact h
  | cons g gs ih => exact ih (insertOne now db g) (insertOne_nodup_paths now db g h)

/-- C6 counterexample: a row already at Success, re-selected by a later
transcode run whose encode fails, is overwritten to Error: the terminal
status does not persist. -/
theorem terminal_status_overwritten_cex :
    successRow.status = TranscodeStatus.success ∧
    successRow.rowid = sampleFile.rowid ∧
    (transcodeLedger sampleOpts [successRow] [(sampleFile, failEnv)]).map
      TranscodeFile.status = [TranscodeStatus.error] :=
  ⟨rfl, rfl, rfl⟩

/-- C6 amended: a fresh scan (insert_batch) never resets a finished row:
every existing row, whatever its status, is left byte-for-byte unchanged,
the insert only appending new rows. (Later transcode runs, however, CAN
overwrite a terminal status: selection does not filter by status and
set_file_status updates unconditionally, as the counterexample shows.) -/
theorem scan_never_resets_rows (now : Int) (db : Ledger)
    (files : List NewTranscodeFile) :
    ∃ tail, insert_batch now db files = db ++ tail :=
  insert_batch_append now db files

/-- C7: insert_batch is idempotent with respect to paths: re-inserting the
same batch is a no-op, the resulting path column stays duplicate-free, and
existing rows are never overwritten (the insert only appends). -/
theorem insert_batch_idempotent (now1 now2 : Int) (db : Ledger)
    (files : List NewTranscodeFile) (hdb : (db.map TranscodeFile.path).Nodup) :
    insert_batch now2 (insert_batch now1 db files) files = insert_batch now1 db files ∧
    ((insert_batch now1 db files).map TranscodeFile.path).Nodup ∧
    ∃ tail, insert_batch now1 db files = db ++ tail := by
  refine ⟨?_, insert_batch_nodup_paths now1 db files hdb, insert_batch_append now1 db files⟩
  exact insert_batch_noop_of_paths_present now2 _ files fun f hf =>
    paths_present_after_insert_batch now1 db files f hf

/-- Witness for C7: the same two-element batch (with an internal duplicate)
inserted twice into the empty ledger. -/
theorem insert_batch_idempotent_witness :
    insert_batch 1 (insert_batch 0 [] [sampleRecord, sampleRecord])
        [sampleRecord, sampleRecord] =
      insert_batch 0 [] [sampleRecord, sampleRecord] ∧
    ((insert_batch 0 [] [sampleRecord, sampleRecord]).map TranscodeFile.path).Nodup ∧
    ∃ tail, insert_batch 0 [] [sampleRecord, sampleRecord] = [] ++ tail :=
  insert_batch_idempotent 0 1 [] [sampleRecord, sampleRecord] (by simp)

/-- C3 counterexample: a ledger holding a row whose probed codec is hevc
(in the exclusion set); selection for transcoding (list_limit, as called by
main.rs line 163) still returns it — the exclusion set is NOT applied at
selection time. -/
theorem selection_includes_excluded_codec_cex :
    list_limit [hevcRow] (some 5) = [hevcRow] ∧
    excluded_codecs.contains hevcRow.ffprobe_info.video_codec = true :=
  ⟨rfl, rfl⟩

/-- C3 amended: selection returns at most N records when a limit N ≥ 0 is
given and is ordered by file_size descending, drawing only from the ledger;
the codec exclusion, however, happens at scan time (collect.rs drops
hevc/av1 files before insert_batch), not at selection time. -/
theorem selection_limit_order_amended (db : Ledger) (n : Int) (c : Option Int)
    (files : List (String × FfProbe × Nat)) (hn : 0 ≤ n) :
    (list_limit db (some n)).length ≤ n.toNat ∧
    List.Sorted sizeDescOrder (list_limit db c) ∧
    (∀ x ∈ list_limit db c, x ∈ db) ∧
    ∀ f ∈ retainSupported files, excluded_codecs.contains f.2.1.video_codec = false := by
  refine ⟨?_, ?_, ?_, ?_⟩
  · show (sqlLimit n (List.insertionSort sizeDescOrder db)).length ≤ n.toNat
    unfold sqlLimit
    split
    · rename_i hneg
      exact absurd hneg (by omega)
    · exact List.length_take_le _ _
  · show List.Sorted sizeDescOrder
      (sqlLimit (c.getD (2 ^ 63 - 1)) (List.insertionSort sizeDescOrder db))
    unfold sqlLimit
    split
    · exact List.sorted_insertionSort sizeDescOrder db
    · exact (List.sorted_insertionSort sizeDescOrder db).sublist (List.take_sublist _ _)
  · intro x hx
    have hx' : x ∈ List.insertionSort sizeDescOrder db := by
      revert hx
      show x ∈ sqlLimit (c.getD (2 ^ 63 - 1)) (List.insertionSort sizeDescOrder db) → _
      unfold sqlLimit
      split
      · exact id
      · exact fun h => (List.take_sublist _ _).mem h
    exact (List.perm_insertionSort sizeDescOrder db).mem_iff.mp hx'
  · intro f hf
    rw [retainSupported, List.mem_filter] at hf
    simpa using hf.2

/-- Witness for the amended C3 at concrete inputs. -/
theorem selection_limit_order_amended_witness :
    (list_limit [hevcRow] (some 1)).length ≤ (1 : Int).toNat ∧
    List.Sorted sizeDescOrder (list_limit [hevcRow] none) ∧
    (∀ x ∈ list_limit [hevcRow] none, x ∈ [hevcRow]) ∧
    ∀ f ∈ retainSupported [("/v/y.mp4", ⟨[⟨some "video", some "h264"⟩]⟩, 5)],
      excluded_codecs.contains f.2.1.video_codec = false :=
  selection_limit_order_amended [hevcRow] 1 none
    [("/v/y.mp4", ⟨[⟨some "video", some "h264"⟩]⟩, 5)] (by decide)

theorem u64_sub_of_le (a b : Nat) (hle : b ≤ a) (ha : a < 2 ^ 64) : u64_sub a b = a - b := by
  have h : (2 : Nat) ^ 64 = 18446744073709551616 := by norm_num
  unfold u64_sub
  rw [h] at ha ⊢
  omega

theorem progress_spec (events : List Nat) (p t : Nat)
    (hfirst : ∀ e, events.head? = some e → p ≤ e / 1000)
    (hp : p < 2 ^ 64)
    (hmono : events.Chain' (· ≤ ·))
    (h64 : ∀ e ∈ events, e < 2 ^ 64) :
    deltasNonneg p events = true ∧
    p ≤ (events.foldl progressStep (p, t)).1 ∧
    events.foldl progressStep (p, t) =
      (match events.getLast? with
       | none => (p, t)
       | some last => (last / 1000, t + (last / 1000 - p))) := by
  induction events generalizing p t with
  | nil => exact ⟨rfl, le_refl p, rfl⟩
  | cons e rest ih =>
    have hpe : p ≤ e / 1000 := hfirst e rfl
    have he64 : e < 2 ^ 64 := h64 e (by simp)
    have hm64 : e / 1000 < 2 ^ 64 := lt_of_le_of_lt (Nat.div_le_self e 1000) he64
    have hstep : progressStep (p, t) e = (e / 1000, t + (e / 1000 - p)) := by
      simp [progressStep, u64_sub_of_le _ _ hpe hm64]
    have hfirst' : ∀ e', rest.head? = some e' → e / 1000 ≤ e' / 1000 := by
      intro e' he'
      cases rest with
      | nil => cases he'
      | cons r rs =>
        injection he' with he'
        subst he'
        exact Nat.div_le_div_right (List.chain'_cons.mp hmono).1
    obtain ⟨ih1, ih2, ih3⟩ := ih (e / 1000) (t + (e / 1000 - p)) hfirst' hm64 hmono.tail
      fun x hx => h64 x (by simp [hx])
    refine ⟨?_, ?_, ?_⟩
    · simp only [deltasNonneg, Bool.and_eq_true]
      exact ⟨decide_eq_true hpe, ih1⟩
    · show p ≤ ((e :: rest).foldl progressStep (p, t)).1
      rw [List.foldl_cons, hstep]
      exact le_trans hpe ih2
    · rw [List.foldl_cons, hstep, ih3]
      cases rest with
      | nil => simp
      | cons r rs =>
        rw [List.getLast?_cons_cons]
        cases hrl : (r :: rs).getLast? with
        | none => simp at hrl
        | some last =>
          have hle2 : e / 1000 ≤ last / 1000 := by
            have h2 := ih2
            rw [ih3, hrl] at h2
            exact h2
          simp only [Prod.mk.injEq, true_and]
          omega

/-- C5: for a file processed against a progress stream whose out_time_us
values are strictly increasing and end at D·1,000,000, every per-event
delta is a plain non-negative difference, and the total added to the
aggregate progress counter equals D·1000 milliseconds. -/
theorem progress_total_exact (opts : TranscodeOptions) (file : VideoFile)
    (env : EncodeEnv) (D : Nat)
    (hout : env.isFile (outFilePath file.path) = false)
    (hdry : opts.dry_run = false)
    (hspawn : env.spawnErr = none)
    (hmono : env.events.Chain' (· < ·))
    (h64 : ∀ e ∈ env.events, e < 2 ^ 64)
    (hlast : env.events.getLast? = some (D * 1000000)) :
    deltasNonneg 0 env.events = true ∧
    (progressDrain env.events).2 = D * 1000 ∧
    (transcode_file opts file env).progressAdded = D * 1000 := by
  obtain ⟨h1, _, h3⟩ := progress_spec env.events 0 0
    (fun e _ => Nat.zero_le _) (by norm_num)
    (List.Chain'.imp (fun a b h => le_of_lt h) hmono) h64
  have htot : (progressDrain env.events).2 = D * 1000 := by
    unfold progressDrain
    rw [h3, hlast]
    simp
    omega
  refine ⟨h1, htot, ?_⟩
  have hpa : (transcode_file opts file env).progressAdded = (progressDrain env.events).2 := by
    simp only [transcode_file, hout, hdry, hspawn, Bool.false_eq_true, if_false]
    repeat' split
    all_goals rfl
  rw [hpa, htot]

/-- Witness for C5: a three-event stream for a two-second file. -/
theorem progress_total_exact_witness :
    deltasNonneg 0 progEnv.events = true ∧
    (progressDrain progEnv.events).2 = 2 * 1000 ∧
    (transcode_file sampleOpts sampleFile progEnv).progressAdded = 2 * 1000 :=
  progress_total_exact sampleOpts sampleFile progEnv 2 rfl rfl rfl
    (show List.Chain' (· < ·) [500000, 1500000, 2000000] by
      norm_num [List.chain'_cons, List.chain'_singleton])
    (by decide) rfl

/-- C9: with configured parallelism P ≥ 1, in every pool state reachable
from the initial one at most P encode subprocesses are live (one per busy
worker, and there are exactly P worker slots, each holding at most one
in-flight file by construction). -/
theorem pool_bounded_concurrency (P : Nat) (_hP : 1 ≤ P) (files : List VideoFile)
    (s : PoolState) (h : Relation.ReflTransGen PoolStep (initPool P files) s) :
    s.live ≤ P ∧ s.workers.length = P := by
  have hlen : s.workers.length = P := by
    induction h with
    | refl => simp [initPool]
    | tail h1 step ih =>
      cases step with
      | start i f rest hi hp => simpa [List.length_set] using ih
      | finish i f hi => simpa [List.length_set] using ih
  refine ⟨?_, hlen⟩
  calc s.workers.countP (fun w => w.isSome)
      ≤ s.workers.length := List.countP_le_length _
    _ = P := hlen

/-- Witness for C9: the initial two-worker pool over one pending file. -/
theorem pool_bounded_concurrency_witness :
    (initPool 2 [sampleFile]).live ≤ 2 ∧ (initPool 2 [sampleFile]).workers.length = 2 :=
  pool_bounded_concurrency 2 (by decide) [sampleFile] (initPool 2 [sampleFile])
    Relation.ReflTransGen.refl

theorem dropWhile_eq_self_of_all_false (p : Char → Bool) (l : List Char)
    (h : ∀ c ∈ l, p c = false) : l.dropWhile p = l := by
  cases l with
  | nil => rfl
  | cons c cs => simp [List.dropWhile_cons, h c (List.mem_cons_self c cs)]

theorem rustTrim_digits (l : List Char) (h : ∀ c ∈ l, c.isDigit = true) :
    rustTrim l = l := by
  have h1 : ∀ c ∈ l, c.isWhitespace = false := fun c hc =>
    isDigit_isWhitespace_false c (h c hc)
  unfold rustTrim
  rw [dropWhile_eq_self_of_all_false _ _ h1,
    dropWhile_eq_self_of_all_false _ _ fun c hc => h1 c (List.mem_reverse.mp hc),
    List.reverse_reverse]

theorem map_toLower_digits (m : List Char) (hm : ∀ c ∈ m, c.isDigit = true) :
    m.map Char.toLower = m := by
  induction m with
  | nil => rfl
  | cons c cs ih =>
    rw [List.map_cons, toLower_eq_self_of_isDigit c (hm c (List.mem_cons_self c cs)),
      ih fun x hx => hm x (List.mem_cons_of_mem c hx)]

theorem digitsVal_dropLast (l : List Char) (hne : l ≠ [])
    (hd : ∀ c ∈ l, c.isDigit = true) :
    digitsVal l.dropLast = digitsVal l / 10 := by
  have hsplit := List.dropLast_append_getLast hne
  have hlast : (l.getLast hne).isDigit = true := hd _ (List.getLast_mem hne)
  have hle : (l.getLast hne).toNat ≤ 57 := isDigit_toNat_le _ hlast
  conv_rhs => rw [← hsplit]
  unfold digitsVal
  rw [List.foldl_append]
  simp only [List.foldl_cons, List.foldl_nil]
  omega

theorem parse_u64_of_digits (l : List Char) (hne : l ≠ [])
    (hall : ∀ c ∈ l, c.isDigit = true) (hlt : digitsVal l < 2 ^ 64) :
    parse_u64 l = some (digitsVal l) := by
  cases l with
  | nil => exact absurd rfl hne
  | cons c cs =>
    have hall' : (c :: cs).all Char.isDigit = true := by
      rw [List.all_eq_true]
      intro x hx
      simpa using hall x hx
    have hpow : (2 : Nat) ^ 64 = 18446744073709551616 := by norm_num
    have hlt' : digitsVal (c :: cs) < 18446744073709551616 := by rw [hpow] at hlt; exact hlt
    simp [parse_u64, hall', hlt']

/-- C10: for every input consisting only of ASCII digits, parse_bytes
treats the final digit as an (unrecognized) unit suffix and discards it:
the result is the u64 parse of all but the last character — None for a
one-character input, and the value of the whole string divided by ten
otherwise. -/
theorem parse_bytes_drops_last_digit (s : String)
    (hd : ∀ c ∈ s.data, c.isDigit = true) (hlen : 1 ≤ s.data.length) :
    parse_bytes s = parse_u64 (s.data.take (s.data.length - 1)) ∧
    (s.data.length = 1 → parse_bytes s = none) ∧
    ∀ v, 2 ≤ s.data.length → parse_u64 s.data = some v →
      parse_bytes s = some (v / 10) := by
  have htrim : rustTrim s.data = s.data := rustTrim_digits _ hd
  have hsubs : ∀ c ∈ s.data.drop (s.data.length - 1), c.isDigit = true :=
    fun c hc => hd c (List.mem_of_mem_drop hc)
  have hmap : (s.data.drop (s.data.length - 1)).map Char.toLower =
      s.data.drop (s.data.length - 1) := map_toLower_digits _ hsubs
  have hk : s.data.drop (s.data.length - 1) ≠ ['k'] := by
    intro he
    have hdig : ('k' : Char).isDigit = true := hsubs 'k' (by rw [he]; exact List.mem_singleton_self _)
    exact absurd hdig (by decide)
  have hm : s.data.drop (s.data.length - 1) ≠ ['m'] := by
    intro he
    have hdig : ('m' : Char).isDigit = true := hsubs 'm' (by rw [he]; exact List.mem_singleton_self _)
    exact absurd hdig (by decide)
  have hg : s.data.drop (s.data.length - 1) ≠ ['g'] := by
    intro he
    have hdig : ('g' : Char).isDigit = true := hsubs 'g' (by rw [he]; exact List.mem_singleton_self _)
    exact absurd hdig (by decide)
  have hmul : suffixMultiplier (s.data.drop (s.data.length - 1)) = 1 := by
    unfold suffixMultiplier
    rw [hmap, if_neg hk, if_neg hm, if_neg hg]
  have h1 : parse_bytes s = parse_u64 (s.data.take (s.data.length - 1)) := by
    simp only [parse_bytes]
    rw [htrim]
    cases hp : parse_u64 (s.data.take (s.data.length - 1)) with
    | none => rfl
    | some v => rw [hmul]; simp
  have h2 : s.data.length = 1 → parse_bytes s = none := by
    intro hl
    rw [h1, hl]
    simp [parse_u64]
  refine ⟨h1, h2, ?_⟩
  intro v hlen2 hv
  have hne : s.data ≠ [] := by
    intro h0
    rw [h0] at hlen
    simp at hlen
  have hie : s.data.isEmpty = false := by
    cases hds : s.data with
    | nil => exact absurd hds hne
    | cons c cs => rfl
  have hall' : s.data.all Char.isDigit = true := by
    rw [List.all_eq_true]
    intro x hx
    simpa using hd x hx
  have hvv : digitsVal s.data = v ∧ digitsVal s.data < 2 ^ 64 := by
    unfold parse_u64 at hv
    rw [hie, hall'] at hv
    simp only [Bool.false_eq_true, if_false, if_true] at hv
    split at hv
    · rename_i hlt
      injection hv with hv
      exact ⟨hv, hlt⟩
    · cases hv
  have hdne : s.data.dropLast ≠ [] := by
    intro h0
    have hlen0 : s.data.length - 1 = 0 := by
      rw [← List.length_dropLast, h0]
      rfl
    omega
  have hdall : ∀ c ∈ s.data.dropLast, c.isDigit = true :=
    fun c hc => hd c ((List.dropLast_sublist s.data).mem hc)
  have hdval : digitsVal s.data.dropLast = v / 10 := by
    rw [digitsVal_dropLast s.data hne hd, hvv.1]
  have hdlt : digitsVal s.data.dropLast < 2 ^ 64 := by
    rw [digitsVal_dropLast s.data hne hd]
    exact lt_of_le_of_lt (Nat.div_le_self _ 10) hvv.2
  rw [h1, ← List.dropLast_eq_take]
  rw [parse_u64_of_digits s.data.dropLast hdne hdall hdlt, hdval]

/-- Witness for C10: the suffix-less input "100" parses to 10 (one tenth
of the number written), and a one-character digit input parses to none. -/
theorem parse_bytes_drops_last_digit_witness :
    parse_bytes "100" = parse_u64 ("100".data.take ("100".data.length - 1)) ∧
    parse_u64 ("100".data.take ("100".data.length - 1)) = some 10 ∧
    parse_bytes "7" = none :=
  ⟨(parse_bytes_drops_last_digit "100" (by decide) (by decide)).1,
    by decide,
    (parse_bytes_drops_last_digit "7" (by decide) (by decide)).2.1 (by decide)⟩

end Transcoder
